import Mathlib

/-!
# UnixSocketIPC: the message sender

A shallow embedding of `unix_socket_ipc_lib/source/MessageSender.cpp` and the
properties of its framing (`id(4) || size(4) || payload`), of its write loop and
of its state guard.

The sender talks to the operating system through four primitives (`socket`,
`connect`, `close`, `send`).  They are gathered in `Host`, together with the
constants of the platform the code reads (`sizeof(sun_path)`,
`sizeof(sun_family)`, the byte order of a `uint32_t` in memory).  Every
invocation of a primitive is recorded in a log, so that "what reached the
transport" and "how often the write primitive was invoked" are observable.

`std::mutex mtx` is not modelled: the embedding is sequential.
-/

namespace unixsocketipc

/-- One `char` of a buffer. -/
abbrev Byte := Fin 256

/-- Byte order in which the platform lays out a `uint32_t` in memory. -/
inductive ByteOrder where
  | little
  | big
deriving DecidableEq, Repr

/-- One invocation of an operating-system primitive, with what it was given and
what it returned. -/
inductive Event where
  | socket (ret : Int)
  | connect (fd : Int) (sun_path : List Byte) (length : Nat) (ret : Int)
  | close (fd : Int)
  | send (fd : Int) (buf : List Byte) (ret : Int)
deriving DecidableEq, Repr

/-- The platform under the sender.  `σ` is the state of the operating system
(socket buffers, the peer, ...).

* `socket s` is `socket(AF_UNIX, SOCK_STREAM, 0)`;
* `connect s fd path length` is `connect(fd, &remote, length)` with
  `remote.sun_path = path`;
* `close s fd` is `::close(fd)`;
* `send s fd buf` is `::send(fd, buf, len, MSG_NOSIGNAL)` where `buf` holds the
  `len` bytes offered; it returns the `ssize_t` result.  Its contract is the one
  of POSIX: `-1` on error, otherwise the number of bytes taken, at most `len`. -/
structure Host (σ : Type) where
  byte_order : ByteOrder
  sun_path_size : Nat
  sun_family_size : Nat
  socket : σ → Int × σ
  connect : σ → Int → List Byte → Nat → Int × σ
  close : σ → Int → σ
  send : σ → Int → List Byte → Int × σ
  send_ret : ∀ s fd buf, -1 ≤ (send s fd buf).1 ∧ (send s fd buf).1 ≤ (buf.length : Int)

/-- The operating system's state together with the log of every primitive
invoked so far, oldest first. -/
structure World (σ : Type) where
  st : σ
  log : List Event
deriving DecidableEq

/-- Data members of `MessageSender` that the code reads (`mtx` left out). -/
structure MessageSender where
  socket_filename : List Byte
  server_socket_fd : Int
deriving DecidableEq, Repr

/-- Modelled from the spec: the declaration of `server_socket_fd` in
`MessageSender.h`, which is not among the sources.  The constructor body in
`MessageSender.cpp` is empty; the spec's initial state is *uninitialized (no
handle)*, and the code writes "no handle" as `server_socket_fd = 0`
(`// not initialized` in `init`, `if (server_socket_fd)` in the destructor). -/
def MessageSender.fresh : MessageSender :=
  { socket_filename := [], server_socket_fd := 0 }

/-! ## Machine integers -/

/-- Conversion of the `ssize_t` returned by `::send` to the `int`
`num_bytes_sent` it is assigned to: reduction modulo `2^32` into
`[-2^31, 2^31)`. -/
def to_int (r : Int) : Int :=
  (r + 2147483648) % 4294967296 - 2147483648

/-- Unsigned 32-bit `bytes_left -= num_bytes_sent`. -/
def sub_u32 (bytes_left : Nat) (num_bytes_sent : Int) : Nat :=
  (((bytes_left : Int) - num_bytes_sent) % 4294967296).toNat

/-- Byte number `k` (from the least significant) of a `uint32_t`. -/
def u32_byte (v : Nat) (k : Nat) : Byte :=
  ⟨(v / 256 ^ k) % 256, Nat.mod_lt _ (by decide)⟩

/-- The four bytes `reinterpret_cast<char*>(&v)` points at, for a `uint32_t v`
(the argument is reduced modulo `2^32` by the four extractions). -/
def u32_bytes (bo : ByteOrder) (v : Nat) : List Byte :=
  match bo with
  | ByteOrder.little => [u32_byte v 0, u32_byte v 1, u32_byte v 2, u32_byte v 3]
  | ByteOrder.big => [u32_byte v 3, u32_byte v 2, u32_byte v 1, u32_byte v 0]

/-! ## `MessageSender::send_buffer` -/

/-- What one `::send` call put on the wire: the first `ret` bytes offered. -/
def Event.accepted : Event → List Byte
  | Event.send _ buf ret => buf.take ret.toNat
  | _ => []

/-- The write primitive reported failure: it returned zero or a negative
value. -/
def Event.failed : Event → Bool
  | Event.send _ _ ret => decide (ret ≤ 0)
  | _ => false

/-- The event is an invocation of the write primitive on descriptor `fd`. -/
def Event.on_fd (fd : Int) : Event → Bool
  | Event.send f _ _ => decide (f = fd)
  | _ => false

/-- All bytes the transport has taken, in order. -/
def wire (log : List Event) : List Byte :=
  (log.map Event.accepted).flatten

/-- Number of invocations of the write primitive in a log. -/
def writes (log : List Event) : Nat :=
  (log.filter (fun e => match e with | Event.send _ _ _ => true | _ => false)).length

/-- Reading of "a failure aborts the call" on the events one call adds to the
log: nothing follows a write that reported failure, and the call then reports
failure (`ok = false`). -/
def Stops (ok : Bool) (evs : List Event) : Prop :=
  ∀ pre e post, evs = pre ++ e :: post → e.failed = true → post = [] ∧ ok = false

/-- The `while` loop of `send_buffer`, one iteration per unit of fuel.
`buf` is the list `buf` points at, `bytes_left` the counter. -/
def send_buffer_loop {σ : Type} (h : Host σ) (fd : Int) :
    Nat → List Byte → Nat → World σ → Bool × World σ
  | 0, _, bytes_left, w => (bytes_left == 0, w)
  | fuel + 1, buf, bytes_left, w =>
    if bytes_left > 0 then
      let offered := buf.take bytes_left
      let r := h.send w.st fd offered
      let w1 : World σ := { st := r.2, log := w.log ++ [Event.send fd offered r.1] }
      let num_bytes_sent := to_int r.1
      if num_bytes_sent > 0 then
        send_buffer_loop h fd fuel (buf.drop num_bytes_sent.toNat)
          (sub_u32 bytes_left num_bytes_sent) w1
      else
        (bytes_left == 0, w1)
    else
      (bytes_left == 0, w)

/-- `MessageSender::send_buffer(buf, size)`.  Every iteration that continues
lowers `bytes_left` by at least one (`Host.send_ret`), so `size` units of fuel
always reach the loop's exit (`send_buffer_loop_fuel`). -/
def send_buffer {σ : Type} (h : Host σ) (self : MessageSender)
    (buf : List Byte) (size : Nat) (w : World σ) : Bool × World σ :=
  send_buffer_loop h self.server_socket_fd size buf size w

/-! ## `MessageSender::send_message`, `send`, `send_stop_listener` -/

/-- `MessageSender::send_message(id, buf, size)`. -/
def send_message {σ : Type} (h : Host σ) (self : MessageSender)
    (id : Nat) (buf : List Byte) (size : Nat) (w : World σ) : Bool × World σ :=
  let r1 := send_buffer h self (u32_bytes h.byte_order id) 4 w
  if !r1.1 then (false, r1.2)
  else
    let r2 := send_buffer h self (u32_bytes h.byte_order size) 4 r1.2
    if !r2.1 then (false, r2.2)
    else
      let r3 := send_buffer h self buf size r2.2
      if !r3.1 then (false, r3.2)
      else (true, r3.2)

/-- The three `return` statements of `MessageSender::send`, named after the
diagnostic each one logs. -/
inductive SendExit where
  | not_initialized
  | send_message_failed
  | done
deriving DecidableEq, Repr

/-- The `bool` each `return` statement of `send` yields. -/
def SendExit.value : SendExit → Bool
  | SendExit.not_initialized => false
  | SendExit.send_message_failed => false
  | SendExit.done => true

/-- Body of `MessageSender::send`, keeping which `return` was taken. -/
def send_exit {σ : Type} (h : Host σ) (self : MessageSender)
    (id : Nat) (data : List Byte) (size : Nat) (w : World σ) : SendExit × World σ :=
  if self.server_socket_fd == 0 then (SendExit.not_initialized, w)
  else
    let r := send_message h self id data size w
    if !r.1 then (SendExit.send_message_failed, r.2)
    else (SendExit.done, r.2)

/-- `MessageSender::send(id, data, size)`: the value returned and the world
after the call. -/
def send {σ : Type} (h : Host σ) (self : MessageSender)
    (id : Nat) (data : List Byte) (size : Nat) (w : World σ) : Bool × World σ :=
  ((send_exit h self id data size w).1.value, (send_exit h self id data size w).2)

/-- How a call of `init` ends: it returns, or `strcpy` writes past the end of
`remote.sun_path` (undefined behaviour; the state reached so far is kept). -/
inductive InitExit (σ : Type) where
  | returned (value : Bool) (self : MessageSender) (w : World σ)
  | overflow (self : MessageSender) (w : World σ)
deriving DecidableEq

/-- The world at the end of a call of `init`. -/
def InitExit.world {σ : Type} : InitExit σ → World σ
  | InitExit.returned _ _ w => w
  | InitExit.overflow _ w => w

/-- `MessageSender::init(filename)`.  `filename` is the string without its
terminating NUL, so `strcpy` writes `filename.length + 1` bytes into
`remote.sun_path`; `length` is an `unsigned`. -/
def init {σ : Type} (h : Host σ) (self : MessageSender) (filename : List Byte)
    (w : World σ) : InitExit σ :=
  let self1 : MessageSender := { self with socket_filename := filename }
  let r := h.socket w.st
  let w1 : World σ := { st := r.2, log := w.log ++ [Event.socket r.1] }
  let self2 : MessageSender := { self1 with server_socket_fd := r.1 }
  if r.1 == -1 then InitExit.returned false self2 w1
  else if h.sun_path_size < filename.length + 1 then InitExit.overflow self2 w1
  else
    let length := (filename.length + h.sun_family_size) % 4294967296
    let c := h.connect w1.st self2.server_socket_fd filename length
    let w2 : World σ :=
      { st := c.2, log := w1.log ++ [Event.connect self2.server_socket_fd filename length c.1] }
    if c.1 == -1 then
      let w3 : World σ :=
        { st := h.close w2.st self2.server_socket_fd,
          log := w2.log ++ [Event.close self2.server_socket_fd] }
      InitExit.returned false { self2 with server_socket_fd := 0 } w3
    else InitExit.returned true self2 w2

/-! ## The receiver's side of the wire format -/

/-- Reading of four bytes as a `uint32_t` in the given byte order. -/
def u32_of_bytes (bo : ByteOrder) (bs : List Byte) : Nat :=
  match bo with
  | ByteOrder.little => bs.foldr (fun b acc => b.val + 256 * acc) 0
  | ByteOrder.big => bs.foldl (fun acc b => 256 * acc + b.val) 0

/-- Modelled from the spec: the compatible receiver of section 6, which is not
among the sources: "read exactly 8 bytes for the header, interpret the two
fields, then read exactly `length` more bytes as payload".  The result is the
id, the payload and the bytes left on the stream; `none` when the stream ends
before the frame does. -/
def decode_frame (bo : ByteOrder) (stream : List Byte) : Option (Nat × List Byte × List Byte) :=
  if stream.length < 8 then none
  else
    let id := u32_of_bytes bo (stream.take 4)
    let length := u32_of_bytes bo ((stream.drop 4).take 4)
    let rest := stream.drop 8
    if rest.length < length then none
    else some (id, rest.take length, rest.drop length)

/-- A host whose transport takes `k` bytes of every non-empty request (all of
it when it is shorter) and rejects a negative descriptor, whose `socket()`
returns `sock` and whose `connect` returns `conn`.  The state is the stream the
peer will read. -/
def mock_host (bo : ByteOrder) (k : Nat) (sock conn : Int) : Host (List Byte) where
  byte_order := bo
  sun_path_size := 108
  sun_family_size := 2
  socket := fun s => (sock, s)
  connect := fun s _ _ _ => (conn, s)
  close := fun s _ => s
  send := fun s fd buf =>
    if fd < 0 then (-1, s) else (((min k buf.length : Nat) : Int), s ++ buf.take k)
  send_ret := by
    intro s fd buf
    by_cases hfd : fd < 0
    · simp only [hfd, if_true]
      omega
    · simp only [hfd, if_false]
      omega

/-- A host whose peer has closed its end: every `::send` returns `-1`. -/
def broken_host (bo : ByteOrder) : Host Unit where
  byte_order := bo
  sun_path_size := 108
  sun_family_size := 2
  socket := fun s => (3, s)
  connect := fun s _ _ _ => (0, s)
  close := fun s _ => s
  send := fun s _ _ => (-1, s)
  send_ret := by
    intro s fd buf
    simp only
    omega


/-- A sender holding descriptor 3. -/
def connected_sender : MessageSender :=
  { socket_filename := [], server_socket_fd := 3 }

/-- The 37 bytes `0, 1, ..., 36`. -/
def payload37 : List Byte :=
  (List.range 37).map (fun i => u32_byte i 0)

/-- An endpoint identifier of 200 characters `'a'`, longer than `sun_path`. -/
def long_name : List Byte :=
  List.replicate 200 97

/-- A payload of `2^31` bytes. -/
def payload_2g : List Byte :=
  List.replicate 2147483648 0

/-- A world in which nothing has happened yet. -/
def quiet (σ : Type) (s : σ) : World σ :=
  { st := s, log := [] }

/-! ## Arithmetic of the loop counter -/

theorem to_int_pos {r : Int} (h1 : -1 ≤ r) (hpos : 0 < to_int r) :
    1 ≤ to_int r ∧ to_int r ≤ r := by
  unfold to_int at *
  omega

theorem to_int_eq {r : Int} (h1 : -1 ≤ r) (h2 : r < 2147483648) : to_int r = r := by
  unfold to_int
  omega

theorem to_int_of_pos {r : Int} {n : Nat} (h1 : -1 ≤ r) (h2 : r ≤ n) (hn : n < 4294967296)
    (hpos : 0 < to_int r) : to_int r = r ∧ 1 ≤ r ∧ r < 2147483648 := by
  unfold to_int at *
  omega

theorem sub_u32_lt {bytes_left : Nat} {num : Int} (h1 : 1 ≤ num) (h2 : num ≤ bytes_left) :
    sub_u32 bytes_left num + 1 ≤ bytes_left := by
  unfold sub_u32
  omega

theorem sub_u32_eq {bytes_left : Nat} {num : Int} (h1 : 0 ≤ num) (h2 : num ≤ bytes_left)
    (hn : bytes_left < 4294967296) : sub_u32 bytes_left num = bytes_left - num.toNat := by
  unfold sub_u32
  omega

/-! ## The write loop -/

theorem send_buffer_loop_step {σ : Type} (h : Host σ) (fd : Int) (fuel : Nat)
    (buf : List Byte) (bytes_left : Nat) (w : World σ) :
    send_buffer_loop h fd (fuel + 1) buf bytes_left w =
      if bytes_left > 0 then
        if to_int (h.send w.st fd (buf.take bytes_left)).1 > 0 then
          send_buffer_loop h fd fuel
            (buf.drop (to_int (h.send w.st fd (buf.take bytes_left)).1).toNat)
            (sub_u32 bytes_left (to_int (h.send w.st fd (buf.take bytes_left)).1))
            { st := (h.send w.st fd (buf.take bytes_left)).2,
              log := w.log ++ [Event.send fd (buf.take bytes_left)
                (h.send w.st fd (buf.take bytes_left)).1] }
        else
          (bytes_left == 0,
            { st := (h.send w.st fd (buf.take bytes_left)).2,
              log := w.log ++ [Event.send fd (buf.take bytes_left)
                (h.send w.st fd (buf.take bytes_left)).1] })
      else (bytes_left == 0, w) := by
  rw [send_buffer_loop]

theorem send_ret_le {σ : Type} (h : Host σ) (s : σ) (fd : Int) (buf : List Byte) (n : Nat) :
    (h.send s fd (buf.take n)).1 ≤ n := by
  have h1 := (h.send_ret s fd (buf.take n)).2
  have h2 : (buf.take n).length ≤ n := by simp
  omega

/-- One more unit of fuel than `bytes_left` changes nothing: the loop has
already reached its exit. -/
theorem send_buffer_loop_succ {σ : Type} (h : Host σ) (fd : Int) :
    ∀ (fuel : Nat) (buf : List Byte) (bytes_left : Nat) (w : World σ), bytes_left ≤ fuel →
      send_buffer_loop h fd (fuel + 1) buf bytes_left w
        = send_buffer_loop h fd fuel buf bytes_left w := by
  intro fuel
  induction fuel with
  | zero =>
    intro buf bytes_left w hle
    have h0 : bytes_left = 0 := by omega
    subst h0
    simp [send_buffer_loop]
  | succ n ih =>
    intro buf bytes_left w hle
    rw [send_buffer_loop_step h fd (n + 1) buf bytes_left w,
      send_buffer_loop_step h fd n buf bytes_left w]
    by_cases hb : bytes_left > 0
    · simp only [hb, if_true]
      by_cases hn : to_int (h.send w.st fd (buf.take bytes_left)).1 > 0
      · simp only [hn, if_true]
        apply ih
        have hp := to_int_pos (h.send_ret w.st fd (buf.take bytes_left)).1 hn
        have hle2 := send_ret_le h w.st fd buf bytes_left
        have := sub_u32_lt hp.1 (le_trans hp.2 hle2)
        omega
      · simp only [hn, if_false]
    · simp only [hb, if_false]

/-- Enough fuel gives the result: with at least `bytes_left` units the loop
returns what `send_buffer` returns with exactly `bytes_left`. -/
theorem send_buffer_loop_fuel {σ : Type} (h : Host σ) (fd : Int)
    (buf : List Byte) (bytes_left : Nat) (w : World σ) :
    ∀ (extra : Nat), send_buffer_loop h fd (bytes_left + extra) buf bytes_left w
        = send_buffer_loop h fd bytes_left buf bytes_left w := by
  intro extra
  induction extra with
  | zero => rfl
  | succ k ih =>
    rw [← ih]
    exact send_buffer_loop_succ h fd (bytes_left + k) buf bytes_left w (by omega)

/-! ## Logs -/

theorem wire_append (a b : List Event) : wire (a ++ b) = wire a ++ wire b := by
  simp [wire]

theorem wire_nil : wire [] = [] := rfl

theorem wire_cons (e : Event) (l : List Event) : wire (e :: l) = e.accepted ++ wire l := by
  simp [wire]

theorem writes_append (a b : List Event) : writes (a ++ b) = writes a + writes b := by
  simp [writes]

theorem writes_on_fd (fd : Int) (evs : List Event) (hfd : ∀ e ∈ evs, e.on_fd fd = true) :
    writes evs = evs.length := by
  induction evs with
  | nil => rfl
  | cons e l ih =>
    have he := hfd e (List.mem_cons_self _ _)
    have hl := ih (fun x hx => hfd x (List.mem_cons_of_mem _ hx))
    cases e <;> simp_all [writes, Event.on_fd]

theorem stops_nil (ok : Bool) : Stops ok [] := by
  intro pre e post hsplit
  simp at hsplit

theorem stops_cons {ok : Bool} {e : Event} {evs : List Event} (he : e.failed = false)
    (hs : Stops ok evs) : Stops ok (e :: evs) := by
  intro pre x post hsplit hx
  cases pre with
  | nil =>
    simp only [List.nil_append, List.cons.injEq] at hsplit
    rw [← hsplit.1, he] at hx
    exact absurd hx (by decide)
  | cons p pre =>
    simp only [List.cons_append, List.cons.injEq] at hsplit
    exact hs pre x post hsplit.2 hx

theorem stops_append {ok : Bool} {a b : List Event} (ha : ∀ e ∈ a, e.failed = false)
    (hb : Stops ok b) : Stops ok (a ++ b) := by
  induction a with
  | nil => simpa using hb
  | cons e l ih =>
    rw [List.cons_append]
    exact stops_cons (ha e (List.mem_cons_self _ _))
      (ih (fun x hx => ha x (List.mem_cons_of_mem _ hx)))

theorem stops_single (e : Event) : Stops false [e] := by
  intro pre x post hsplit _
  cases pre with
  | nil =>
    simp only [List.nil_append, List.cons.injEq] at hsplit
    exact ⟨hsplit.2.symm, rfl⟩
  | cons p pre =>
    simp at hsplit

theorem stops_true_clean {evs : List Event} (hs : Stops true evs) :
    ∀ e ∈ evs, e.failed = false := by
  intro e he
  obtain ⟨pre, post, hsplit⟩ := List.append_of_mem he
  cases hf : e.failed with
  | false => rfl
  | true => exact absurd (hs pre e post hsplit hf).2 (by decide)

/-! ## What one call of `send_buffer` does -/

/-- The loop of `send_buffer`, described by the events `evs` it adds to the log
and the number `n` of bytes of `buf` the transport took. -/
theorem send_buffer_loop_spec {σ : Type} (h : Host σ) (fd : Int) :
    ∀ (fuel : Nat) (buf : List Byte) (bytes_left : Nat) (w : World σ),
      bytes_left ≤ fuel → bytes_left < 4294967296 →
      ∃ (evs : List Event) (n : Nat),
        (send_buffer_loop h fd fuel buf bytes_left w).2.log = w.log ++ evs
        ∧ n ≤ bytes_left
        ∧ wire evs = buf.take n
        ∧ ((send_buffer_loop h fd fuel buf bytes_left w).1 = true → n = bytes_left)
        ∧ (0 < bytes_left → evs ≠ [])
        ∧ Stops (send_buffer_loop h fd fuel buf bytes_left w).1 evs
        ∧ (∀ e ∈ evs, e.on_fd fd = true) := by
  intro fuel
  induction fuel with
  | zero =>
    intro buf bytes_left w hle _
    have h0 : bytes_left = 0 := by omega
    subst h0
    exact ⟨[], 0, by simp [send_buffer_loop], le_refl _, by simp [wire_nil], fun _ => rfl,
      fun hpos => absurd hpos (by decide), stops_nil _, by simp⟩
  | succ k ih =>
    intro buf bytes_left w hle hlt
    rw [send_buffer_loop_step h fd k buf bytes_left w]
    by_cases hb : bytes_left > 0
    · simp only [hb, if_true]
      have hret := (h.send_ret w.st fd (buf.take bytes_left)).1
      have hle2 := send_ret_le h w.st fd buf bytes_left
      generalize h.send w.st fd (buf.take bytes_left) = r at hret hle2 ⊢
      by_cases hn : to_int r.1 > 0
      · simp only [hn, if_true]
        obtain ⟨heq, h1, h31⟩ := to_int_of_pos hret hle2 hlt hn
        rw [heq]
        have hsub := sub_u32_eq (le_trans (by decide) h1) hle2 hlt
        obtain ⟨evs, n, hlog, hn', hwire, hok, _, hstops, hon⟩ :=
          ih (buf.drop r.1.toNat) (sub_u32 bytes_left r.1)
            { st := r.2, log := w.log ++ [Event.send fd (buf.take bytes_left) r.1] }
            (by omega) (by omega)
        refine ⟨Event.send fd (buf.take bytes_left) r.1 :: evs, r.1.toNat + n, ?_, ?_, ?_, ?_,
          ?_, ?_, ?_⟩
        · rw [hlog]
          simp
        · omega
        · rw [wire_cons, hwire, List.take_add]
          simp only [Event.accepted, List.take_take]
          congr 2
          omega
        · intro hokt
          have := hok hokt
          omega
        · intro _
          exact List.cons_ne_nil _ _
        · refine stops_cons ?_ hstops
          simp only [Event.failed, decide_eq_false_iff_not]
          omega
        · intro e he
          rcases List.mem_cons.mp he with rfl | he
          · simp [Event.on_fd]
          · exact hon e he
      · simp only [hn, if_false]
        have hbf : (bytes_left == 0) = false := by
          simp only [beq_eq_false_iff_ne, ne_eq]
          omega
        rw [hbf]
        refine ⟨[Event.send fd (buf.take bytes_left) r.1], r.1.toNat, rfl, ?_, ?_, ?_, ?_, ?_, ?_⟩
        · omega
        · rw [wire_cons, wire_nil]
          simp only [Event.accepted, List.take_take, List.append_nil]
          congr 1
          omega
        · intro hc
          exact absurd hc (by decide)
        · intro _
          exact List.cons_ne_nil _ _
        · exact stops_single _
        · intro e he
          rw [List.mem_singleton.mp he]
          simp [Event.on_fd]
    · simp only [hb, if_false]
      have h0 : bytes_left = 0 := by omega
      subst h0
      exact ⟨[], 0, by simp, le_refl _, by simp [wire_nil], fun _ => rfl,
        fun hpos => absurd hpos (by decide), stops_nil _, by simp⟩

theorem send_buffer_spec {σ : Type} (h : Host σ) (self : MessageSender)
    (buf : List Byte) (size : Nat) (w : World σ) (hsize : size < 4294967296) :
    ∃ (evs : List Event) (n : Nat),
      (send_buffer h self buf size w).2.log = w.log ++ evs
      ∧ n ≤ size
      ∧ wire evs = buf.take n
      ∧ ((send_buffer h self buf size w).1 = true → n = size)
      ∧ (0 < size → evs ≠ [])
      ∧ Stops (send_buffer h self buf size w).1 evs
      ∧ (∀ e ∈ evs, e.on_fd self.server_socket_fd = true) :=
  send_buffer_loop_spec h self.server_socket_fd size buf size w (le_refl _) hsize

/-- With nothing to send the write primitive is not invoked. -/
theorem send_buffer_zero {σ : Type} (h : Host σ) (self : MessageSender)
    (buf : List Byte) (w : World σ) : send_buffer h self buf 0 w = (true, w) := by
  simp [send_buffer, send_buffer_loop]

/-- A transport that takes at least one byte, and fewer than `2^31`, of every
request of at most `N` bytes lets the loop run to completion. -/
theorem send_buffer_loop_accepts {σ : Type} (h : Host σ) (fd : Int) (N : Nat)
    (hacc : ∀ s buf, buf ≠ [] → buf.length ≤ N →
      1 ≤ (h.send s fd buf).1 ∧ (h.send s fd buf).1 < 2147483648) :
    ∀ (fuel : Nat) (buf : List Byte) (bytes_left : Nat) (w : World σ),
      bytes_left ≤ fuel → bytes_left ≤ buf.length → bytes_left ≤ N →
      (send_buffer_loop h fd fuel buf bytes_left w).1 = true := by
  intro fuel
  induction fuel with
  | zero =>
    intro buf bytes_left w hle _ _
    have h0 : bytes_left = 0 := by omega
    subst h0
    simp [send_buffer_loop]
  | succ k ih =>
    intro buf bytes_left w hle hlen hN
    rw [send_buffer_loop_step h fd k buf bytes_left w]
    by_cases hb : bytes_left > 0
    · simp only [hb, if_true]
      have hlen2 : (buf.take bytes_left).length = bytes_left := by
        simp only [List.length_take]
        omega
      have hne : buf.take bytes_left ≠ [] := by
        intro hc
        rw [hc] at hlen2
        simp at hlen2
        omega
      have ha := hacc w.st (buf.take bytes_left) hne (by omega)
      have hle2 := send_ret_le h w.st fd buf bytes_left
      generalize h.send w.st fd (buf.take bytes_left) = r at ha hle2 ⊢
      have heq : to_int r.1 = r.1 := to_int_eq (by omega) ha.2
      rw [heq]
      have hpos : r.1 > 0 := by omega
      simp only [hpos, if_true]
      have hsub : sub_u32 bytes_left r.1 + 1 ≤ bytes_left := sub_u32_lt ha.1 hle2
      have hsub2 : sub_u32 bytes_left r.1 ≤ bytes_left - r.1.toNat := by
        unfold sub_u32
        omega
      apply ih
      · omega
      · simp only [List.length_drop]
        omega
      · omega
    · simp only [hb, if_false]
      simp only [beq_iff_eq]
      omega

/-- Over a transport that takes exactly one byte per call the loop invokes the
write primitive once per byte. -/
theorem send_buffer_loop_one_byte {σ : Type} (h : Host σ) (fd : Int)
    (hone : ∀ s buf, buf ≠ [] → (h.send s fd buf).1 = 1) :
    ∀ (fuel : Nat) (buf : List Byte) (bytes_left : Nat) (w : World σ),
      bytes_left ≤ fuel → bytes_left ≤ buf.length → bytes_left < 4294967296 →
      writes (send_buffer_loop h fd fuel buf bytes_left w).2.log = writes w.log + bytes_left := by
  intro fuel
  induction fuel with
  | zero =>
    intro buf bytes_left w hle _ _
    have h0 : bytes_left = 0 := by omega
    subst h0
    simp [send_buffer_loop]
  | succ k ih =>
    intro buf bytes_left w hle hlen hlt
    rw [send_buffer_loop_step h fd k buf bytes_left w]
    by_cases hb : bytes_left > 0
    · simp only [hb, if_true]
      have hlen2 : (buf.take bytes_left).length = bytes_left := by
        simp only [List.length_take]
        omega
      have hne : buf.take bytes_left ≠ [] := by
        intro hc
        rw [hc] at hlen2
        simp at hlen2
        omega
      rw [hone w.st (buf.take bytes_left) hne]
      have h1 : to_int 1 = 1 := by decide
      have hs : sub_u32 bytes_left 1 = bytes_left - 1 := by
        unfold sub_u32
        omega
      rw [h1, hs]
      simp only [gt_iff_lt, zero_lt_one, if_true]
      rw [ih _ _ _ (by omega) (by simp only [List.length_drop]; omega) (by omega)]
      simp only [writes_append]
      simp only [writes, List.filter_cons, List.filter_nil, List.length_cons, List.length_nil,
        if_true]
      omega
    · simp only [hb, if_false]
      omega

theorem u32_bytes_length (bo : ByteOrder) (v : Nat) : (u32_bytes bo v).length = 4 := by
  cases bo <;> rfl

/-- What `send_message` adds to the log: at least one write, all on the
sender's descriptor, none after a failed one; and on success the transport has
taken the frame `id || size || payload`. -/
theorem send_message_spec {σ : Type} (h : Host σ) (self : MessageSender)
    (id : Nat) (data : List Byte) (size : Nat) (w : World σ) (hsize : size < 4294967296) :
    ∃ (evs : List Event),
      (send_message h self id data size w).2.log = w.log ++ evs
      ∧ evs ≠ []
      ∧ Stops (send_message h self id data size w).1 evs
      ∧ (∀ e ∈ evs, e.on_fd self.server_socket_fd = true)
      ∧ ((send_message h self id data size w).1 = true →
          wire evs = u32_bytes h.byte_order id ++ u32_bytes h.byte_order size ++ data.take size) := by
  obtain ⟨evs1, n1, hlog1, _, hwire1, hok1, hne1, hst1, hon1⟩ :=
    send_buffer_spec h self (u32_bytes h.byte_order id) 4 w (by decide)
  have hne1 := hne1 (by decide)
  unfold send_message
  simp only []
  cases hr1 : (send_buffer h self (u32_bytes h.byte_order id) 4 w).1 with
  | false =>
    simp only [Bool.not_false, if_true]
    rw [hr1] at hst1
    exact ⟨evs1, hlog1, hne1, hst1, hon1, fun hc => absurd hc (by decide)⟩
  | true =>
    simp only [Bool.not_true, Bool.false_eq_true, if_false]
    rw [hr1] at hst1
    have hn1 := hok1 hr1
    subst hn1
    have hclean1 := stops_true_clean hst1
    obtain ⟨evs2, n2, hlog2, _, hwire2, hok2, _, hst2, hon2⟩ :=
      send_buffer_spec h self (u32_bytes h.byte_order size) 4
        (send_buffer h self (u32_bytes h.byte_order id) 4 w).2 (by decide)
    cases hr2 : (send_buffer h self (u32_bytes h.byte_order size) 4
        (send_buffer h self (u32_bytes h.byte_order id) 4 w).2).1 with
    | false =>
      simp only [Bool.not_false, if_true]
      rw [hr2] at hst2
      refine ⟨evs1 ++ evs2, ?_, ?_, stops_append hclean1 hst2, ?_, fun hc => absurd hc (by decide)⟩
      · rw [hlog2, hlog1, List.append_assoc]
      · simp [hne1]
      · intro e he
        rcases List.mem_append.mp he with he | he
        · exact hon1 e he
        · exact hon2 e he
    | true =>
      simp only [Bool.not_true, Bool.false_eq_true, if_false]
      rw [hr2] at hst2
      have hn2 := hok2 hr2
      subst hn2
      have hclean2 := stops_true_clean hst2
      obtain ⟨evs3, n3, hlog3, _, hwire3, hok3, _, hst3, hon3⟩ :=
        send_buffer_spec h self data size
          (send_buffer h self (u32_bytes h.byte_order size) 4
            (send_buffer h self (u32_bytes h.byte_order id) 4 w).2).2 hsize
      have hclean12 : ∀ e ∈ evs1 ++ evs2, e.failed = false := by
        intro e he
        rcases List.mem_append.mp he with he | he
        · exact hclean1 e he
        · exact hclean2 e he
      have hlog : (send_buffer h self data size
          (send_buffer h self (u32_bytes h.byte_order size) 4
            (send_buffer h self (u32_bytes h.byte_order id) 4 w).2).2).2.log
          = w.log ++ (evs1 ++ evs2 ++ evs3) := by
        rw [hlog3, hlog2, hlog1]
        simp only [List.append_assoc]
      have hon : ∀ e ∈ evs1 ++ evs2 ++ evs3, e.on_fd self.server_socket_fd = true := by
        intro e he
        rcases List.mem_append.mp he with he | he
        · rcases List.mem_append.mp he with he | he
          · exact hon1 e he
          · exact hon2 e he
        · exact hon3 e he
      have hne : evs1 ++ evs2 ++ evs3 ≠ [] := by simp [hne1]
      cases hr3 : (send_buffer h self data size
          (send_buffer h self (u32_bytes h.byte_order size) 4
            (send_buffer h self (u32_bytes h.byte_order id) 4 w).2).2).1 with
      | false =>
        simp only [Bool.not_false, if_true]
        rw [hr3] at hst3
        exact ⟨evs1 ++ evs2 ++ evs3, hlog, hne, stops_append hclean12 hst3, hon,
          fun hc => absurd hc (by decide)⟩
      | true =>
        simp only [Bool.not_true, Bool.false_eq_true, if_false]
        rw [hr3] at hst3
        rw [hok3 hr3] at hwire3
        refine ⟨evs1 ++ evs2 ++ evs3, hlog, hne, stops_append hclean12 hst3, hon, fun _ => ?_⟩
        rw [wire_append, wire_append, hwire1, hwire2, hwire3]
        have e1 := u32_bytes_length h.byte_order id
        have e2 := u32_bytes_length h.byte_order size
        rw [List.take_of_length_le (by omega), List.take_of_length_le (by omega)]

/-- Over a transport that takes at least one byte, and fewer than `2^31`, of
every request of at most `N` bytes, `send_message` succeeds for a payload of at
most `N` bytes. -/
theorem send_message_accepts {σ : Type} (h : Host σ) (self : MessageSender) (N : Nat)
    (hacc : ∀ s buf, buf ≠ [] → buf.length ≤ N →
      1 ≤ (h.send s self.server_socket_fd buf).1
        ∧ (h.send s self.server_socket_fd buf).1 < 2147483648)
    (id : Nat) (data : List Byte) (size : Nat) (w : World σ)
    (hN : 4 ≤ N) (hsize : size ≤ N) (hlen : size ≤ data.length) :
    (send_message h self id data size w).1 = true := by
  have hseg : ∀ (buf : List Byte) (n : Nat) (w0 : World σ), n ≤ buf.length → n ≤ N →
      (send_buffer h self buf n w0).1 = true := fun buf n w0 h1 h2 =>
    send_buffer_loop_accepts h self.server_socket_fd N hacc n buf n w0 (le_refl _) h1 h2
  unfold send_message
  simp only [hseg _ 4 _ (le_of_eq (u32_bytes_length _ _).symm) hN, hseg data size _ hlen hsize,
    Bool.not_true, Bool.false_eq_true, if_false]

/-- Over a transport that takes exactly one byte per call, `send_message`
invokes the write primitive `8 + size` times. -/
theorem send_message_one_byte {σ : Type} (h : Host σ) (self : MessageSender)
    (hone : ∀ s buf, buf ≠ [] → (h.send s self.server_socket_fd buf).1 = 1)
    (id : Nat) (data : List Byte) (size : Nat) (w : World σ)
    (hsize : size < 4294967296) (hlen : size ≤ data.length) :
    (send_message h self id data size w).1 = true
      ∧ writes (send_message h self id data size w).2.log = writes w.log + (8 + size) := by
  have hacc : ∀ s buf, buf ≠ [] → buf.length ≤ 4294967296 →
      1 ≤ (h.send s self.server_socket_fd buf).1
        ∧ (h.send s self.server_socket_fd buf).1 < 2147483648 := by
    intro s buf hne _
    rw [hone s buf hne]
    decide
  have hseg : ∀ (buf : List Byte) (n : Nat) (w0 : World σ), n ≤ buf.length → n < 4294967296 →
      (send_buffer h self buf n w0).1 = true := fun buf n w0 h1 h2 =>
    send_buffer_loop_accepts h self.server_socket_fd 4294967296 hacc n buf n w0 (le_refl _) h1
      (le_of_lt h2)
  have hcnt : ∀ (buf : List Byte) (n : Nat) (w0 : World σ), n ≤ buf.length → n < 4294967296 →
      writes (send_buffer h self buf n w0).2.log = writes w0.log + n := fun buf n w0 h1 h2 =>
    send_buffer_loop_one_byte h self.server_socket_fd hone n buf n w0 (le_refl _) h1 h2
  have h4 : ∀ v, 4 ≤ (u32_bytes h.byte_order v).length := fun v =>
    le_of_eq (u32_bytes_length _ v).symm
  unfold send_message
  simp only [hseg _ 4 _ (h4 _) (by decide), hseg data size _ hlen hsize,
    Bool.not_true, Bool.false_eq_true, if_false, true_and]
  rw [hcnt data size _ hlen hsize, hcnt _ 4 _ (h4 _) (by decide), hcnt _ 4 _ (h4 _) (by decide)]
  omega

/-! ## The wire format read back -/

theorem u32_of_bytes_u32_bytes (bo : ByteOrder) (v : Nat) :
    u32_of_bytes bo (u32_bytes bo v) = v % 4294967296 := by
  cases bo <;>
    simp only [u32_of_bytes, u32_bytes, u32_byte, List.foldr, List.foldl] <;>
    omega

theorem decode_frame_encode (bo : ByteOrder) (id size : Nat) (data : List Byte)
    (hlen : data.length = size) (hsize : size < 4294967296) :
    decode_frame bo (u32_bytes bo id ++ u32_bytes bo size ++ data)
      = some (id % 4294967296, data, []) := by
  have e1 := u32_bytes_length bo id
  have e2 := u32_bytes_length bo size
  have t1 : (u32_bytes bo id ++ u32_bytes bo size ++ data).take 4 = u32_bytes bo id := by
    rw [List.append_assoc, List.take_append_of_le_length (by omega),
      List.take_of_length_le (by omega)]
  have d1 : (u32_bytes bo id ++ u32_bytes bo size ++ data).drop 4 = u32_bytes bo size ++ data := by
    rw [List.append_assoc, List.drop_append_of_le_length (by omega),
      List.drop_of_length_le (by omega), List.nil_append]
  have t2 : ((u32_bytes bo id ++ u32_bytes bo size ++ data).drop 4).take 4 = u32_bytes bo size := by
    rw [d1, List.take_append_of_le_length (by omega), List.take_of_length_le (by omega)]
  have d2 : (u32_bytes bo id ++ u32_bytes bo size ++ data).drop 8 = data := by
    have : (8 : Nat) = 4 + 4 := rfl
    rw [this, ← List.drop_drop, d1, List.drop_append_of_le_length (by omega),
      List.drop_of_length_le (by omega), List.nil_append]
  have hl : ¬ (u32_bytes bo id ++ u32_bytes bo size ++ data).length < 8 := by
    simp only [List.length_append, e1, e2]
    omega
  unfold decode_frame
  simp only [hl, if_false, t1, t2, d2, u32_of_bytes_u32_bytes, Nat.mod_eq_of_lt hsize, hlen,
    lt_irrefl, List.take_of_length_le (le_of_eq hlen), List.drop_of_length_le (le_of_eq hlen)]

/-! ## `send` -/

theorem send_exit_not_ready {σ : Type} (h : Host σ) (self : MessageSender)
    (id : Nat) (data : List Byte) (size : Nat) (w : World σ)
    (hfd : self.server_socket_fd = 0) :
    send_exit h self id data size w = (SendExit.not_initialized, w) := by
  simp [send_exit, hfd]

theorem send_exit_ready {σ : Type} (h : Host σ) (self : MessageSender)
    (id : Nat) (data : List Byte) (size : Nat) (w : World σ)
    (hfd : self.server_socket_fd ≠ 0) :
    send_exit h self id data size w
      = (if (send_message h self id data size w).1 then SendExit.done
          else SendExit.send_message_failed, (send_message h self id data size w).2) := by
  unfold send_exit
  cases hr : (send_message h self id data size w).1 <;> simp [hfd, hr]

theorem send_ready {σ : Type} (h : Host σ) (self : MessageSender)
    (id : Nat) (data : List Byte) (size : Nat) (w : World σ)
    (hfd : self.server_socket_fd ≠ 0) :
    send h self id data size w = send_message h self id data size w := by
  unfold send
  rw [send_exit_ready h self id data size w hfd]
  cases hr : (send_message h self id data size w).1 <;>
    simp [SendExit.value, Prod.ext_iff, hr]

theorem send_not_ready {σ : Type} (h : Host σ) (self : MessageSender)
    (id : Nat) (data : List Byte) (size : Nat) (w : World σ)
    (hfd : self.server_socket_fd = 0) :
    send h self id data size w = (false, w) := by
  unfold send
  rw [send_exit_not_ready h self id data size w hfd]
  rfl

/-- When the write primitive's result, read as an `int`, is not positive, the
loop stops there and `send_buffer` reports failure. -/
theorem send_buffer_loop_exit {σ : Type} (h : Host σ) (fd : Int) (fuel : Nat)
    (buf : List Byte) (bytes_left : Nat) (w : World σ) (hfuel : 0 < fuel) (hb : 0 < bytes_left)
    (hr : ¬ to_int (h.send w.st fd (buf.take bytes_left)).1 > 0) :
    send_buffer_loop h fd fuel buf bytes_left w
      = (false, { st := (h.send w.st fd (buf.take bytes_left)).2,
                  log := w.log ++ [Event.send fd (buf.take bytes_left)
                    (h.send w.st fd (buf.take bytes_left)).1] }) := by
  obtain ⟨k, rfl⟩ : ∃ k, fuel = k + 1 := ⟨fuel - 1, by omega⟩
  rw [send_buffer_loop_step h fd k buf bytes_left w]
  have hbf : (bytes_left == 0) = false := by
    simp only [beq_eq_false_iff_ne, ne_eq]
    omega
  simp only [gt_iff_lt, hb, if_true, hbf]
  rw [if_neg hr]

/-! ## Claims about the frame on the wire -/

/-- C1 (round trip).  For every `id` and `size` that are `uint32_t` values and
every payload of exactly `size` bytes, on every host and in every byte order:
if `send(id, payload, size)` returns `true`, the bytes the transport took during
the call are exactly `id(4) || size(4) || payload`, and the decoder of the wire
format, run on those bytes in the same byte order, returns that id, that payload
and nothing left over.  (A call that returns `true` was made on a sender whose
descriptor is set, so this covers every established sender.) -/
theorem send_round_trip {σ : Type} (h : Host σ) (self : MessageSender)
    (id : Nat) (data : List Byte) (size : Nat) (w : World σ)
    (hid : id < 4294967296) (hsize : size < 4294967296) (hlen : data.length = size)
    (hok : (send h self id data size w).1 = true) :
    ∃ evs : List Event,
      (send h self id data size w).2.log = w.log ++ evs
      ∧ wire evs = u32_bytes h.byte_order id ++ u32_bytes h.byte_order size ++ data
      ∧ decode_frame h.byte_order (wire evs) = some (id, data, []) := by
  by_cases hfd : self.server_socket_fd = 0
  · rw [send_not_ready h self id data size w hfd] at hok
    simp at hok
  · rw [send_ready h self id data size w hfd] at hok ⊢
    obtain ⟨evs, hlog, _, _, _, hwire⟩ := send_message_spec h self id data size w hsize
    have hw := hwire hok
    rw [List.take_of_length_le (le_of_eq hlen)] at hw
    refine ⟨evs, hlog, hw, ?_⟩
    rw [hw, decode_frame_encode h.byte_order id size data hlen hsize, Nat.mod_eq_of_lt hid]

/-- C1 at `id = 42` with the 37-byte payload, one byte taken per write. -/
theorem send_round_trip_witness :
    (send (mock_host ByteOrder.little 1 3 0) connected_sender 42 payload37 37
        (quiet (List Byte) [])).1 = true
    ∧ ∃ evs : List Event,
      (send (mock_host ByteOrder.little 1 3 0) connected_sender 42 payload37 37
          (quiet (List Byte) [])).2.log = (quiet (List Byte) []).log ++ evs
      ∧ wire evs = u32_bytes (mock_host ByteOrder.little 1 3 0).byte_order 42
          ++ u32_bytes (mock_host ByteOrder.little 1 3 0).byte_order 37 ++ payload37
      ∧ decode_frame (mock_host ByteOrder.little 1 3 0).byte_order (wire evs)
          = some (42, payload37, []) :=
  ⟨by decide,
    send_round_trip (mock_host ByteOrder.little 1 3 0) connected_sender 42 payload37 37
      (quiet (List Byte) []) (by decide) (by decide) (by decide) (by decide)⟩

/-- C3.  On a sender on which `init` has never been called, `send` leaves by
its "not initialized" return, yields `false`, and leaves the world as it was:
the write primitive is invoked zero times and no byte reaches the transport. -/
theorem send_before_init {σ : Type} (h : Host σ)
    (id : Nat) (data : List Byte) (size : Nat) (w : World σ) :
    send_exit h MessageSender.fresh id data size w = (SendExit.not_initialized, w)
    ∧ send h MessageSender.fresh id data size w = (false, w)
    ∧ writes (send h MessageSender.fresh id data size w).2.log = writes w.log
    ∧ wire (send h MessageSender.fresh id data size w).2.log = wire w.log := by
  have e1 := send_exit_not_ready h MessageSender.fresh id data size w rfl
  have e2 := send_not_ready h MessageSender.fresh id data size w rfl
  exact ⟨e1, e2, by rw [e2], by rw [e2]⟩

/-- C9.  For every `id`, if `send` with `size = 0` returns `true` (whatever
`data` points at, `nullptr` included), the transport took exactly 8 bytes during
the call, the 4 bytes of `id` followed by four zero bytes, which read back as the
length 0; the world after the call is the one left by the two header segments,
and `send_buffer` on the payload segment invokes nothing. -/
theorem send_empty_payload {σ : Type} (h : Host σ) (self : MessageSender)
    (id : Nat) (data : List Byte) (w : World σ)
    (hok : (send h self id data 0 w).1 = true) :
    (∃ evs : List Event,
      (send h self id data 0 w).2.log = w.log ++ evs
      ∧ wire evs = u32_bytes h.byte_order id ++ [0, 0, 0, 0]
      ∧ (wire evs).length = 8)
    ∧ u32_bytes h.byte_order 0 = [0, 0, 0, 0]
    ∧ u32_of_bytes h.byte_order [0, 0, 0, 0] = 0
    ∧ (send h self id data 0 w).2
        = (send_buffer h self (u32_bytes h.byte_order 0) 4
            (send_buffer h self (u32_bytes h.byte_order id) 4 w).2).2
    ∧ (∀ w2 : World σ, send_buffer h self data 0 w2 = (true, w2)) := by
  have hz : u32_bytes h.byte_order 0 = [0, 0, 0, 0] := by
    cases h.byte_order <;> rfl
  have hdec : u32_of_bytes h.byte_order [0, 0, 0, 0] = 0 := by
    cases h.byte_order <;> rfl
  by_cases hfd : self.server_socket_fd = 0
  · rw [send_not_ready h self id data 0 w hfd] at hok
    simp at hok
  · rw [send_ready h self id data 0 w hfd] at hok ⊢
    obtain ⟨evs, hlog, _, _, _, hwire⟩ := send_message_spec h self id data 0 w (by decide)
    have hw := hwire hok
    rw [List.take_zero, List.append_nil, hz] at hw
    refine ⟨⟨evs, hlog, hw, ?_⟩, hz, hdec, ?_, fun w2 => send_buffer_zero h self data w2⟩
    · rw [hw, List.length_append, u32_bytes_length]
      rfl
    · have hok2 := hok
      unfold send_message at hok2 ⊢
      simp only [send_buffer_zero] at hok2 ⊢
      cases hr1 : (send_buffer h self (u32_bytes h.byte_order id) 4 w).1 with
      | false => simp [hr1] at hok2
      | true =>
        cases hr2 : (send_buffer h self (u32_bytes h.byte_order 0) 4
            (send_buffer h self (u32_bytes h.byte_order id) 4 w).2).1 with
        | false => simp [hr1, hr2] at hok2
        | true => simp

/-- C9 at `id = 42`, everything offered taken at once, big-endian. -/
theorem send_empty_payload_witness :
    (send (mock_host ByteOrder.big 8 3 0) connected_sender 42 [] 0
        (quiet (List Byte) [])).1 = true
    ∧ wire (send (mock_host ByteOrder.big 8 3 0) connected_sender 42 [] 0
        (quiet (List Byte) [])).2.log = [0, 0, 0, 42, 0, 0, 0, 0] := by
  refine ⟨by decide, ?_⟩
  obtain ⟨⟨evs, hlog, hwire, _⟩, _⟩ :=
    send_empty_payload (mock_host ByteOrder.big 8 3 0) connected_sender 42 []
      (quiet (List Byte) []) (by decide)
  rw [hlog, wire_append, hwire]
  decide

/-- Partial writes, one byte per call (C2 without its generalisation): over a
transport that takes exactly one byte of every request, `send` on a sender whose
descriptor is set returns `true`, the transport takes exactly
`id(4) || size(4) || payload`, and the write primitive is invoked `8 + size`
times. -/
theorem send_one_byte_per_call {σ : Type} (h : Host σ) (self : MessageSender)
    (id : Nat) (data : List Byte) (size : Nat) (w : World σ)
    (hsize : size < 4294967296) (hlen : data.length = size)
    (hfd : self.server_socket_fd ≠ 0)
    (hone : ∀ s buf, buf ≠ [] → (h.send s self.server_socket_fd buf).1 = 1) :
    (send h self id data size w).1 = true
    ∧ ∃ evs : List Event,
      (send h self id data size w).2.log = w.log ++ evs
      ∧ wire evs = u32_bytes h.byte_order id ++ u32_bytes h.byte_order size ++ data
      ∧ writes evs = 8 + size := by
  rw [send_ready h self id data size w hfd]
  obtain ⟨hok, hcnt⟩ := send_message_one_byte h self hone id data size w hsize (le_of_eq hlen.symm)
  obtain ⟨evs, hlog, _, _, _, hwire⟩ := send_message_spec h self id data size w hsize
  have hw := hwire hok
  rw [List.take_of_length_le (le_of_eq hlen)] at hw
  refine ⟨hok, evs, hlog, hw, ?_⟩
  rw [hlog, writes_append] at hcnt
  omega

/-- The witness of C2: `id = 42` with the 37-byte payload needs 45 writes. -/
theorem send_one_byte_per_call_witness :
    (send (mock_host ByteOrder.little 1 3 0) connected_sender 42 payload37 37
        (quiet (List Byte) [])).1 = true
    ∧ writes (send (mock_host ByteOrder.little 1 3 0) connected_sender 42 payload37 37
        (quiet (List Byte) [])).2.log = 45
    ∧ wire (send (mock_host ByteOrder.little 1 3 0) connected_sender 42 payload37 37
        (quiet (List Byte) [])).2.log = [42, 0, 0, 0, 37, 0, 0, 0] ++ payload37 := by
  decide

/-- Partial writes, any count (C2 for payloads below `2^31` bytes): over a
transport that takes at least one byte of every request, `send` of a payload of
fewer than `2^31` bytes returns `true` and the transport takes exactly
`id(4) || size(4) || payload`. -/
theorem send_any_count {σ : Type} (h : Host σ) (self : MessageSender)
    (id : Nat) (data : List Byte) (size : Nat) (w : World σ)
    (hsize : size < 2147483648) (hlen : data.length = size)
    (hfd : self.server_socket_fd ≠ 0)
    (hacc : ∀ s buf, buf ≠ [] → 1 ≤ (h.send s self.server_socket_fd buf).1) :
    (send h self id data size w).1 = true
    ∧ ∃ evs : List Event,
      (send h self id data size w).2.log = w.log ++ evs
      ∧ wire evs = u32_bytes h.byte_order id ++ u32_bytes h.byte_order size ++ data := by
  have haccN : ∀ s buf, buf ≠ [] → buf.length ≤ max 4 size →
      1 ≤ (h.send s self.server_socket_fd buf).1
        ∧ (h.send s self.server_socket_fd buf).1 < 2147483648 := by
    intro s buf hne hl
    have := (h.send_ret s self.server_socket_fd buf).2
    exact ⟨hacc s buf hne, by omega⟩
  have hok : (send_message h self id data size w).1 = true :=
    send_message_accepts h self (max 4 size) haccN id data size w (le_max_left _ _)
      (le_max_right _ _) (le_of_eq hlen.symm)
  rw [send_ready h self id data size w hfd]
  obtain ⟨evs, hlog, _, _, _, hwire⟩ := send_message_spec h self id data size w (by omega)
  have hw := hwire hok
  rw [List.take_of_length_le (le_of_eq hlen)] at hw
  exact ⟨hok, evs, hlog, hw⟩

/-- The narrowing of `ssize_t` to `int` in `send_buffer`: when the transport
takes the whole of every request and the payload has `2^31` bytes or more, the
transport takes the complete frame and `send` nevertheless returns `false`. -/
theorem send_int_narrowing {σ : Type} (h : Host σ) (self : MessageSender)
    (id : Nat) (data : List Byte) (size : Nat) (w : World σ)
    (hlo : 2147483648 ≤ size) (hsize : size < 4294967296) (hlen : data.length = size)
    (hfd : self.server_socket_fd ≠ 0)
    (hfull : ∀ s buf, buf.length ≤ size → (h.send s self.server_socket_fd buf).1 = buf.length) :
    (send h self id data size w).1 = false
    ∧ ∃ evs : List Event,
      (send h self id data size w).2.log = w.log ++ evs
      ∧ wire evs = u32_bytes h.byte_order id ++ u32_bytes h.byte_order size ++ data := by
  have hacc4 : ∀ s buf, buf ≠ [] → buf.length ≤ 4 →
      1 ≤ (h.send s self.server_socket_fd buf).1
        ∧ (h.send s self.server_socket_fd buf).1 < 2147483648 := by
    intro s buf hne hl
    rw [hfull s buf (by omega)]
    have : 0 < buf.length := List.length_pos.mpr hne
    omega
  have hseg : ∀ (v : Nat) (w0 : World σ),
      (send_buffer h self (u32_bytes h.byte_order v) 4 w0).1 = true := fun v w0 =>
    send_buffer_loop_accepts h self.server_socket_fd 4 hacc4 4 _ 4 w0 (le_refl _)
      (le_of_eq (u32_bytes_length _ v).symm) (le_refl _)
  obtain ⟨evs1, n1, hlog1, _, hwire1, hok1, _, _, _⟩ :=
    send_buffer_spec h self (u32_bytes h.byte_order id) 4 w (by decide)
  obtain ⟨evs2, n2, hlog2, _, hwire2, hok2, _, _, _⟩ :=
    send_buffer_spec h self (u32_bytes h.byte_order size) 4
      (send_buffer h self (u32_bytes h.byte_order id) 4 w).2 (by decide)
  rw [hok1 (hseg _ _)] at hwire1
  rw [hok2 (hseg _ _)] at hwire2
  have e1 := u32_bytes_length h.byte_order id
  have e2 := u32_bytes_length h.byte_order size
  rw [List.take_of_length_le (by omega)] at hwire1 hwire2
  have htake : data.take size = data := List.take_of_length_le (le_of_eq hlen)
  have hexit : ∀ w0 : World σ, send_buffer h self data size w0
      = (false, { st := (h.send w0.st self.server_socket_fd data).2,
                  log := w0.log ++ [Event.send self.server_socket_fd data size] }) := by
    intro w0
    have hr : ¬ to_int (h.send w0.st self.server_socket_fd (data.take size)).1 > 0 := by
      rw [htake, hfull _ _ (le_of_eq hlen), hlen]
      unfold to_int
      omega
    have := send_buffer_loop_exit h self.server_socket_fd size data size w0 (by omega)
      (by omega) hr
    rw [htake, hfull _ _ (le_of_eq hlen), hlen] at this
    exact this
  rw [send_ready h self id data size w hfd]
  unfold send_message
  simp only [hseg, hexit, Bool.not_true, Bool.false_eq_true, if_false, Bool.not_false, if_true,
    true_and]
  refine ⟨evs1 ++ evs2 ++ [Event.send self.server_socket_fd data size], ?_, ?_⟩
  · rw [hlog2, hlog1]
    simp only [List.append_assoc]
  · rw [wire_append, wire_append, hwire1, hwire2, wire_cons, wire_nil]
    simp only [Event.accepted, Int.toNat_ofNat, List.append_nil]
    rw [htake]


/-- C2 at a failing input: `id = 42`, a payload of `2^31` bytes, a transport that
takes the whole of every request.  The transport takes the complete frame, the
third `::send` returns `2147483648`, which `int num_bytes_sent` holds as a
negative number, and `send` returns `false`. -/
theorem send_fails_after_full_write :
    (send (mock_host ByteOrder.little 4294967296 3 0) connected_sender 42 payload_2g 2147483648
        (quiet (List Byte) [])).1 = false
    ∧ ∃ evs : List Event,
      (send (mock_host ByteOrder.little 4294967296 3 0) connected_sender 42 payload_2g 2147483648
          (quiet (List Byte) [])).2.log = (quiet (List Byte) []).log ++ evs
      ∧ wire evs = u32_bytes (mock_host ByteOrder.little 4294967296 3 0).byte_order 42
          ++ u32_bytes (mock_host ByteOrder.little 4294967296 3 0).byte_order 2147483648
          ++ payload_2g :=
  send_int_narrowing (mock_host ByteOrder.little 4294967296 3 0) connected_sender 42 payload_2g
    2147483648 (quiet (List Byte) []) (le_refl _) (by decide) (List.length_replicate _ _)
    (by decide) (by
      intro s buf hl
      have h3 : ¬ ((3 : Int) < 0) := by decide
      simp only [mock_host, connected_sender]
      rw [if_neg h3]
      simp only
      omega)

/-! ## Claims about failures -/

/-- C6.  On every host and for every `uint32_t` size: if an invocation of the
write primitive made during a `send` call returned zero or a negative value,
then `send` returns `false` and that invocation is the last one of the call (no
later byte, no later segment, no further write); and when every write of the
transport fails, `send` returns `false`, no byte reaches the transport, and at
most one write is attempted. -/
theorem send_aborts_on_write_failure {σ : Type} (h : Host σ) (self : MessageSender)
    (id : Nat) (data : List Byte) (size : Nat) (w : World σ) (hsize : size < 4294967296) :
    (∀ (pre : List Event) (e : Event) (post : List Event),
        (send h self id data size w).2.log = w.log ++ (pre ++ e :: post) →
        e.failed = true →
        (send h self id data size w).1 = false ∧ post = [])
    ∧ ((∀ s buf, (h.send s self.server_socket_fd buf).1 ≤ 0) →
        (send h self id data size w).1 = false
        ∧ wire (send h self id data size w).2.log = wire w.log
        ∧ writes (send h self id data size w).2.log ≤ writes w.log + 1) := by
  constructor
  · intro pre e post hsplit hfail
    by_cases hfd : self.server_socket_fd = 0
    · rw [send_not_ready h self id data size w hfd] at hsplit
      have hl := congrArg List.length hsplit
      simp at hl
    · rw [send_ready h self id data size w hfd] at hsplit ⊢
      obtain ⟨evs, hlog, _, hstops, _, _⟩ := send_message_spec h self id data size w hsize
      rw [hlog] at hsplit
      have hs := hstops pre e post (List.append_cancel_left hsplit) hfail
      exact ⟨hs.2, hs.1⟩
  · intro hall
    by_cases hfd : self.server_socket_fd = 0
    · rw [send_not_ready h self id data size w hfd]
      exact ⟨rfl, rfl, Nat.le_succ _⟩
    · rw [send_ready h self id data size w hfd]
      have hr : ¬ to_int (h.send w.st self.server_socket_fd
          ((u32_bytes h.byte_order id).take 4)).1 > 0 := by
        have h1 := hall w.st ((u32_bytes h.byte_order id).take 4)
        have h2 := (h.send_ret w.st self.server_socket_fd ((u32_bytes h.byte_order id).take 4)).1
        unfold to_int
        omega
      have hexit := send_buffer_loop_exit h self.server_socket_fd 4 (u32_bytes h.byte_order id) 4 w
        (by decide) (by decide) hr
      have hseg : send_buffer h self (u32_bytes h.byte_order id) 4 w = _ := hexit
      unfold send_message
      simp only [hseg, Bool.not_false, if_true]
      refine ⟨trivial, ?_, ?_⟩
      · rw [wire_append, wire_cons, wire_nil]
        have h0 : (h.send w.st self.server_socket_fd
            ((u32_bytes h.byte_order id).take 4)).1.toNat = 0 :=
          Int.toNat_eq_zero.mpr (hall _ _)
        simp only [Event.accepted, h0, List.take_zero, List.append_nil]
      · rw [writes_append]
        simp [writes]

/-- C6 on the host whose peer has closed: the first write fails, nothing
follows it, and `send` returns `false`. -/
theorem send_aborts_on_write_failure_witness :
    (37 < 4294967296)
    ∧ (send (broken_host ByteOrder.little) connected_sender 42 payload37 37 (quiet Unit ())).2.log
        = (quiet Unit ()).log ++ ([] ++ Event.send 3 [42, 0, 0, 0] (-1) :: [])
    ∧ (Event.send 3 [42, 0, 0, 0] (-1)).failed = true
    ∧ (send (broken_host ByteOrder.little) connected_sender 42 payload37 37 (quiet Unit ())).1
        = false
    ∧ wire (send (broken_host ByteOrder.little) connected_sender 42 payload37 37
        (quiet Unit ())).2.log = wire (quiet Unit ()).log :=
  ⟨by decide, by decide, by decide,
    ((send_aborts_on_write_failure (broken_host ByteOrder.little) connected_sender 42 payload37 37
      (quiet Unit ()) (by decide)).1 [] (Event.send 3 [42, 0, 0, 0] (-1)) [] (by decide)
        (by decide)).1,
    ((send_aborts_on_write_failure (broken_host ByteOrder.little) connected_sender 42 payload37 37
      (quiet Unit ()) (by decide)).2 (fun _ _ => by simp [broken_host])).2.1⟩

/-! ## Claims about `init` and the state guard -/

theorem writes_send_message {σ : Type} (h : Host σ) (self : MessageSender)
    (id : Nat) (data : List Byte) (size : Nat) (w : World σ) (hsize : size < 4294967296) :
    writes w.log + 1 ≤ writes (send_message h self id data size w).2.log := by
  obtain ⟨evs, hlog, hne, _, hon, _⟩ := send_message_spec h self id data size w hsize
  rw [hlog, writes_append, writes_on_fd self.server_socket_fd evs hon]
  have : 0 < evs.length := List.length_pos.mpr hne
  omega

/-- C4 on the path the code gets wrong.  When `socket()` fails, `init` returns
`false` and leaves `server_socket_fd` at `-1`; the following `send` passes the
guard `!server_socket_fd`, does not leave by its "not initialized" return, and
invokes the write primitive at least once. -/
theorem send_after_socket_failure {σ : Type} (h : Host σ) (self : MessageSender)
    (filename : List Byte) (w : World σ) (id : Nat) (data : List Byte) (size : Nat)
    (hsock : (h.socket w.st).1 = -1) (hsize : size < 4294967296) :
    ∃ (self1 : MessageSender) (w1 : World σ),
      init h self filename w = InitExit.returned false self1 w1
      ∧ self1.server_socket_fd = -1
      ∧ (send_exit h self1 id data size w1).1 ≠ SendExit.not_initialized
      ∧ writes w1.log + 1 ≤ writes (send h self1 id data size w1).2.log := by
  refine ⟨{ socket_filename := filename, server_socket_fd := -1 },
    { st := (h.socket w.st).2, log := w.log ++ [Event.socket (-1)] }, ?_, rfl, ?_, ?_⟩
  · unfold init
    simp [hsock]
  · rw [send_exit_ready h _ id data size _ (show (-1 : Int) ≠ 0 by decide)]
    simp only
    split <;> simp
  · rw [send_ready h _ id data size _ (show (-1 : Int) ≠ 0 by decide)]
    exact writes_send_message h _ id data size _ hsize

/-- C4 run on a host out of descriptors: `init` fails in `socket()`, and the
`send` that follows hands the four bytes of `id` to `::send` on descriptor `-1`. -/
theorem send_after_socket_failure_witness :
    ((mock_host ByteOrder.little 1 (-1) 0).socket (quiet (List Byte) []).st).1 = -1
    ∧ init (mock_host ByteOrder.little 1 (-1) 0) MessageSender.fresh [97] (quiet (List Byte) [])
        = InitExit.returned false { socket_filename := [97], server_socket_fd := -1 }
            { st := [], log := [Event.socket (-1)] }
    ∧ send_exit (mock_host ByteOrder.little 1 (-1) 0)
        { socket_filename := [97], server_socket_fd := -1 } 42 [] 0
        { st := [], log := [Event.socket (-1)] }
        = (SendExit.send_message_failed,
            { st := [], log := [Event.socket (-1), Event.send (-1) [42, 0, 0, 0] (-1)] })
    ∧ ∃ (self1 : MessageSender) (w1 : World (List Byte)),
      init (mock_host ByteOrder.little 1 (-1) 0) MessageSender.fresh [97] (quiet (List Byte) [])
        = InitExit.returned false self1 w1
      ∧ self1.server_socket_fd = -1
      ∧ (send_exit (mock_host ByteOrder.little 1 (-1) 0) self1 42 [] 0 w1).1
          ≠ SendExit.not_initialized
      ∧ writes w1.log + 1
          ≤ writes (send (mock_host ByteOrder.little 1 (-1) 0) self1 42 [] 0 w1).2.log :=
  ⟨by decide, by decide, by decide,
    send_after_socket_failure (mock_host ByteOrder.little 1 (-1) 0) MessageSender.fresh [97]
      (quiet (List Byte) []) 42 [] 0 (by decide) (by decide)⟩

/-- The sibling path of C4: when `connect` fails, `init` closes the descriptor,
resets `server_socket_fd` to `0` and returns `false`; the following `send`
leaves by its "not initialized" return without touching the world. -/
theorem send_after_connect_failure {σ : Type} (h : Host σ) (self : MessageSender)
    (filename : List Byte) (w : World σ) (id : Nat) (data : List Byte) (size : Nat)
    (hsock : (h.socket w.st).1 ≠ -1) (hfit : filename.length + 1 ≤ h.sun_path_size)
    (hconn : (h.connect (h.socket w.st).2 (h.socket w.st).1 filename
      ((filename.length + h.sun_family_size) % 4294967296)).1 = -1) :
    ∃ (self1 : MessageSender) (w1 : World σ),
      init h self filename w = InitExit.returned false self1 w1
      ∧ self1.server_socket_fd = 0
      ∧ send_exit h self1 id data size w1 = (SendExit.not_initialized, w1)
      ∧ send h self1 id data size w1 = (false, w1) := by
  have hfit2 : ¬ h.sun_path_size < filename.length + 1 := by omega
  refine ⟨{ socket_filename := filename, server_socket_fd := 0 },
    { st := h.close (h.connect (h.socket w.st).2 (h.socket w.st).1 filename
        ((filename.length + h.sun_family_size) % 4294967296)).2 (h.socket w.st).1,
      log := w.log ++ [Event.socket (h.socket w.st).1]
        ++ [Event.connect (h.socket w.st).1 filename
          ((filename.length + h.sun_family_size) % 4294967296) (-1)]
        ++ [Event.close (h.socket w.st).1] },
    ?_, rfl, send_exit_not_ready h _ id data size _ rfl, send_not_ready h _ id data size _ rfl⟩
  unfold init
  simp only [beq_iff_eq, hsock, if_false, hfit2, hconn, if_true]

/-- The connect-failure path run on a host with no listener. -/
theorem send_after_connect_failure_witness :
    ∃ (self1 : MessageSender) (w1 : World (List Byte)),
      init (mock_host ByteOrder.little 1 3 (-1)) MessageSender.fresh [97] (quiet (List Byte) [])
        = InitExit.returned false self1 w1
      ∧ self1.server_socket_fd = 0
      ∧ send_exit (mock_host ByteOrder.little 1 3 (-1)) self1 42 payload37 37 w1
          = (SendExit.not_initialized, w1)
      ∧ send (mock_host ByteOrder.little 1 3 (-1)) self1 42 payload37 37 w1 = (false, w1) :=
  send_after_connect_failure (mock_host ByteOrder.little 1 3 (-1)) MessageSender.fresh [97]
    (quiet (List Byte) []) 42 payload37 37 (by decide) (by decide) (by decide)

/-- C5 refuted: a call that fails because the sender is not initialized and a
call that fails because the write loop could not complete return the same value,
`false`. -/
theorem send_errors_same_value :
    (send_exit (broken_host ByteOrder.little) MessageSender.fresh 42 payload37 37
        (quiet Unit ())).1 = SendExit.not_initialized
    ∧ (send_exit (broken_host ByteOrder.little) connected_sender 42 payload37 37
        (quiet Unit ())).1 = SendExit.send_message_failed
    ∧ (send (broken_host ByteOrder.little) MessageSender.fresh 42 payload37 37
        (quiet Unit ())).1
      = (send (broken_host ByteOrder.little) connected_sender 42 payload37 37
        (quiet Unit ())).1 := by
  decide

/-- C5 as amended.  The value `send` returns is `false` for both error
conditions; what tells them apart is the effect of the call: a "not initialized"
failure leaves the world as it was (zero writes), a "write failed" failure has
invoked the write primitive at least once. -/
theorem send_errors_differ_in_writes {σ τ : Type} (h1 : Host σ) (self1 : MessageSender)
    (id1 : Nat) (data1 : List Byte) (size1 : Nat) (w1 : World σ)
    (h2 : Host τ) (self2 : MessageSender)
    (id2 : Nat) (data2 : List Byte) (size2 : Nat) (w2 : World τ)
    (hsize : size2 < 4294967296)
    (e1 : (send_exit h1 self1 id1 data1 size1 w1).1 = SendExit.not_initialized)
    (e2 : (send_exit h2 self2 id2 data2 size2 w2).1 = SendExit.send_message_failed) :
    (send h1 self1 id1 data1 size1 w1).1 = false
    ∧ (send h2 self2 id2 data2 size2 w2).1 = false
    ∧ (send h1 self1 id1 data1 size1 w1).2 = w1
    ∧ writes w2.log + 1 ≤ writes (send h2 self2 id2 data2 size2 w2).2.log := by
  have hfd1 : self1.server_socket_fd = 0 := by
    by_contra hne
    rw [send_exit_ready h1 self1 id1 data1 size1 w1 hne] at e1
    revert e1
    simp only
    split <;> simp
  have hfd2 : self2.server_socket_fd ≠ 0 := by
    intro hz
    rw [send_exit_not_ready h2 self2 id2 data2 size2 w2 hz] at e2
    simp at e2
  refine ⟨?_, ?_, ?_, ?_⟩
  · rw [send_not_ready h1 self1 id1 data1 size1 w1 hfd1]
  · unfold send
    rw [e2]
    rfl
  · rw [send_not_ready h1 self1 id1 data1 size1 w1 hfd1]
  · rw [send_ready h2 self2 id2 data2 size2 w2 hfd2]
    exact writes_send_message h2 self2 id2 data2 size2 w2 hsize

/-- C5 as amended, on a fresh sender and on a sender whose peer has closed. -/
theorem send_errors_differ_in_writes_witness :
    (send (mock_host ByteOrder.big 1 3 0) MessageSender.fresh 7 [] 0 (quiet (List Byte) [])).1
        = false
    ∧ (send (broken_host ByteOrder.little) connected_sender 42 payload37 37 (quiet Unit ())).1
        = false
    ∧ (send (mock_host ByteOrder.big 1 3 0) MessageSender.fresh 7 [] 0 (quiet (List Byte) [])).2
        = quiet (List Byte) []
    ∧ writes (quiet Unit ()).log + 1
        ≤ writes (send (broken_host ByteOrder.little) connected_sender 42 payload37 37
            (quiet Unit ())).2.log :=
  send_errors_differ_in_writes (mock_host ByteOrder.big 1 3 0) MessageSender.fresh 7 [] 0
    (quiet (List Byte) []) (broken_host ByteOrder.little) connected_sender 42 payload37 37
    (quiet Unit ()) (by decide) (by decide) (by decide)

set_option maxRecDepth 8192 in
/-- C7 refuted: with an endpoint identifier of 200 characters, longer than the
108 bytes of `sun_path`, `init` has invoked the socket-allocation primitive; on
a host where that allocation succeeds it does not report a failure but runs
into the `strcpy`. -/
theorem init_long_name_allocates :
    (mock_host ByteOrder.little 1 (-1) 0).sun_path_size < long_name.length
    ∧ init (mock_host ByteOrder.little 1 (-1) 0) MessageSender.fresh long_name
        (quiet (List Byte) [])
      = InitExit.returned false { socket_filename := long_name, server_socket_fd := -1 }
          { st := [], log := [Event.socket (-1)] }
    ∧ init (mock_host ByteOrder.little 1 3 0) MessageSender.fresh long_name
        (quiet (List Byte) [])
      = InitExit.overflow { socket_filename := long_name, server_socket_fd := 3 }
          { st := [], log := [Event.socket 3] }
    ∧ (init (mock_host ByteOrder.little 1 3 0) MessageSender.fresh long_name
        (quiet (List Byte) [])).world.log ≠ (quiet (List Byte) []).log :=
  ⟨by decide, rfl, rfl, by decide⟩

/-- C7 as amended.  For every endpoint identifier, whatever its length, the
first thing `init` does is invoke the socket-allocation primitive; when that
allocation fails, `init` returns `false` having invoked nothing else (`connect`
is not invoked). -/
theorem init_allocates_first {σ : Type} (h : Host σ) (self : MessageSender)
    (filename : List Byte) (w : World σ) :
    (∃ evs : List Event,
      (init h self filename w).world.log = w.log ++ Event.socket (h.socket w.st).1 :: evs)
    ∧ ((h.socket w.st).1 = -1 →
        init h self filename w
          = InitExit.returned false { socket_filename := filename, server_socket_fd := -1 }
              { st := (h.socket w.st).2, log := w.log ++ [Event.socket (-1)] }) := by
  constructor
  · unfold init
    simp only []
    split
    · exact ⟨[], by simp [InitExit.world]⟩
    · split
      · exact ⟨[], by simp [InitExit.world]⟩
      · split
        · exact ⟨_, by simp only [InitExit.world, List.append_assoc, List.singleton_append]; rfl⟩
        · exact ⟨_, by simp only [InitExit.world, List.append_assoc, List.singleton_append]; rfl⟩
  · intro hsock
    unfold init
    simp [hsock]

/-- C7 as amended, on the 200-character identifier and a host out of
descriptors. -/
theorem init_allocates_first_witness :
    ((mock_host ByteOrder.little 1 (-1) 0).socket (quiet (List Byte) []).st).1 = -1
    ∧ init (mock_host ByteOrder.little 1 (-1) 0) MessageSender.fresh long_name
        (quiet (List Byte) [])
      = InitExit.returned false { socket_filename := long_name, server_socket_fd := -1 }
          { st := ((mock_host ByteOrder.little 1 (-1) 0).socket (quiet (List Byte) []).st).2,
            log := (quiet (List Byte) []).log ++ [Event.socket (-1)] } :=
  ⟨by decide,
    (init_allocates_first (mock_host ByteOrder.little 1 (-1) 0) MessageSender.fresh long_name
      (quiet (List Byte) [])).2 (by decide)⟩

end unixsocketipc
